import Mathlib

/-!
Verification of the graph-learning engine in `src/ml/gnn_model.py`
(`twin-me` repository).

The development shallowly embeds the Python source: JSON graph payloads
become explicit structures over `ℚ`, the graph builder
(`GNNPatternDetector.prepare_graph_data`), the contrastive loss
(`compute_contrastive_loss`), the training loop (`train`), the inference
pattern loop (`infer`), the embedding export (`generate_embeddings`) and
the CLI dispatcher (`main`) become Lean functions, and fallible code
returns `Except`.  Python `dict`s (which preserve insertion order) are
modelled as ordered association lists.  Library primitives borrowed from
torch are modelled as follows: `F.cosine_similarity` is an abstract
scalar-valued parameter (its value is irrelevant to every claim below),
`torch.relu` / `torch.mean` / the sigmoid and linear layers are defined
explicitly, `torch.randint` is an abstract sampler parameter, and
`sorted(..., reverse=True)` is `List.insertionSort` with the reversed
comparator, which has exactly Python's stable-descending semantics.
-/

/-- A node of the JSON graph payload: `{"id", "type", "features"}`. -/
structure NodeJson where
  id : String
  type : String
  features : List ℚ
deriving DecidableEq, Repr

/-- An edge of the JSON graph payload: `{"source", "target", "type"}`. -/
structure EdgeJson where
  source : String
  target : String
  type : String
deriving DecidableEq, Repr

/-- A JSON graph payload: `{"nodes": [...], "edges": [...]}`. -/
structure GraphJson where
  nodes : List NodeJson
  edges : List EdgeJson
deriving DecidableEq, Repr

/-- An edge type `(sourceNodeType, relation, targetNodeType)`. -/
abbrev EdgeKey := String × String × String

/-- Ordered association-list lookup; models Python `dict` indexing
(`d[k]`, returning the value stored under the first matching key). -/
def lookupA {κ β : Type} [DecidableEq κ] : List (κ × β) → κ → Option β
  | [], _ => none
  | (k, v) :: rest, key => if k = key then some v else lookupA rest key

/-- Models `d[k].append(v)` on a Python dict of lists, creating the key at
the end when absent (Python dicts preserve insertion order). -/
def appendGroup {κ γ : Type} [DecidableEq κ] :
    List (κ × List γ) → κ → γ → List (κ × List γ)
  | [], k, v => [(k, [v])]
  | (k0, vs) :: rest, k, v =>
      if k0 = k then (k0, vs ++ [v]) :: rest
      else (k0, vs) :: appendGroup rest k v

/-- Models Python dict assignment `d[k] = v`: overwrite in place when the
key exists, append at the end otherwise. -/
def setA {κ β : Type} [DecidableEq κ] : List (κ × β) → κ → β → List (κ × β)
  | [], k, v => [(k, v)]
  | (k0, v0) :: rest, k, v =>
      if k0 = k then (k0, v) :: rest
      else (k0, v0) :: setA rest k v

/-- The state built by the node-grouping loop of `prepare_graph_data`:
`nodes_by_type` and `node_id_to_idx`. -/
structure NodeIndex where
  byType : List (String × List (List ℚ))
  idToIdx : List (String × (String × ℕ))
deriving DecidableEq, Repr

/-- One iteration of the node loop of `prepare_graph_data` (source lines
171-178): the node's local index is the current length of its type's
list, its feature vector is appended to that list, and
`node_id_to_idx[id]` is assigned `(type, local_idx)`. -/
def addNode (st : NodeIndex) (n : NodeJson) : NodeIndex :=
  let cur := (lookupA st.byType n.type).getD []
  { byType := appendGroup st.byType n.type n.features
    idToIdx := setA st.idToIdx n.id (n.type, cur.length) }

/-- The node-grouping loop of `prepare_graph_data`. -/
def buildNodes (ns : List NodeJson) : NodeIndex :=
  ns.foldl addNode ⟨[], []⟩

/-- `torch.tensor(features)` succeeds on a list of rows exactly when all
rows have equal length; a ragged list raises `ValueError`. -/
def uniformRows : List (List ℚ) → Bool
  | [] => true
  | r :: rest => rest.all (fun r2 => r2.length = r.length)

/-- Python exceptions raised inside `prepare_graph_data` and the
load/forward pipeline: `KeyError` (unknown node id in an edge),
`ValueError` (ragged feature rows given to `torch.tensor`), and
`AttributeError` (a checkpoint node/edge type with no data in the graph,
hit by `data[key].x` / `data[key].edge_index`). -/
inductive PrepError where
  | keyError (id : String)
  | valueError
  | attrError (name : String)
deriving DecidableEq, Repr

/-- The feature-tensor creation loop of `prepare_graph_data` (source
lines 181-182): `torch.tensor` raises `ValueError` on the first node
type whose feature rows are ragged. -/
def checkTensors : List (String × List (List ℚ)) → Except PrepError Unit
  | [] => .ok ()
  | (_, rows) :: rest =>
      if uniformRows rows then checkTensors rest else .error .valueError

/-- One iteration of the edge loop of `prepare_graph_data` (source lines
186-194): both endpoints are resolved through `node_id_to_idx` (a
missing id raises `KeyError`), the edge-type key is derived, and the
local index pair is appended to that edge type's list. -/
def addEdge (idToIdx : List (String × (String × ℕ)))
    (groups : List (EdgeKey × List (ℕ × ℕ))) (e : EdgeJson) :
    Except PrepError (List (EdgeKey × List (ℕ × ℕ))) :=
  match lookupA idToIdx e.source with
  | none => .error (.keyError e.source)
  | some (sT, sI) =>
      match lookupA idToIdx e.target with
      | none => .error (.keyError e.target)
      | some (tT, tI) => .ok (appendGroup groups (sT, e.type, tT) (sI, tI))

/-- The edge-grouping loop of `prepare_graph_data`. -/
def buildEdges (idToIdx : List (String × (String × ℕ))) :
    List (EdgeKey × List (ℕ × ℕ)) → List EdgeJson →
    Except PrepError (List (EdgeKey × List (ℕ × ℕ)))
  | groups, [] => .ok groups
  | groups, e :: rest =>
      match addEdge idToIdx groups e with
      | .error err => .error err
      | .ok groups2 => buildEdges idToIdx groups2 rest

/-- The `HeteroData` produced by `prepare_graph_data`: per-type feature
matrices, and per-edge-type transposed index matrices (row 0 = source
local indices, row 1 = target local indices, source lines 197-201). -/
structure HeteroData where
  x : List (String × List (List ℚ))
  edge_index : List (EdgeKey × (List ℕ × List ℕ))
deriving DecidableEq, Repr

/-- `GNNPatternDetector.prepare_graph_data` (source lines 150-203):
group nodes by type in first-seen order, build the feature tensors
(`ValueError` on ragged rows), group edges by edge type (`KeyError` on
an unresolved endpoint id), and transpose each edge list. -/
def prepare_graph_data (g : GraphJson) : Except PrepError HeteroData :=
  let st := buildNodes g.nodes
  match checkTensors st.byType with
  | .error e => .error e
  | .ok _ =>
      match buildEdges st.idToIdx [] g.edges with
      | .error e => .error e
      | .ok groups =>
          .ok { x := st.byType
                edge_index := groups.map (fun p => (p.1, p.2.unzip)) }

/-- Substring test on character lists: `needle` occurs somewhere in
`hay` (Python's `needle in hay` on strings). -/
def hasInfix (needle : List Char) : List Char → Bool
  | [] => needle.isEmpty
  | c :: t => needle.isPrefixOf (c :: t) || hasInfix needle t

/-- `'PRECEDES' in s` (source line 290). -/
def strHasPRECEDES (s : String) : Bool :=
  hasInfix "PRECEDES".data s.data

/-- The key-selection loop of `compute_contrastive_loss` (source lines
288-292): the first edge type, in dict iteration order, whose relation
string contains `PRECEDES` as a substring. -/
def findPrecedes (d : List (EdgeKey × (List ℕ × List ℕ))) :
    Option (EdgeKey × (List ℕ × List ℕ)) :=
  d.find? (fun p => strHasPRECEDES p.1.2.1)

/-- The loss value together with its autograd flag.  `torch.tensor(0.0)`
has `requires_grad = False`; a loss composed from model outputs requires
grad.  `Tensor.backward` raises a `RuntimeError` ("element 0 of tensors
does not require grad and does not have a grad_fn") on a tensor with
`requires_grad = False`. -/
structure LossTensor where
  val : ℚ
  requires_grad : Bool
deriving DecidableEq, Repr

/-- `torch.relu` on a scalar. -/
def relu (x : ℚ) : ℚ := max 0 x

/-- `torch.mean` of a 1-d tensor. -/
def mean (l : List ℚ) : ℚ := l.sum / l.length

/-- Row `i` of a per-type embedding matrix (`embeddings[type][i]`). -/
def getRow (m : List (List ℚ)) (i : ℕ) : List ℚ := m.getD i []

/-- `GNNPatternDetector.compute_contrastive_loss` (source lines
277-324).  `cos` stands for the torch library primitive
`F.cosine_similarity` applied to one pair of rows, and `sampler n hi`
for `torch.randint(0, hi, (n,))`; both are kept abstract since no claim
depends on their values.  When no edge type's relation contains
`PRECEDES`, or the selected edge type has zero columns, the function
returns the constant `torch.tensor(0.0)` (no grad).  Otherwise the loss
is `-mean(cos(positive pairs)) + mean(relu(cos(negative pairs)))` where
the positive pairs gather the endpoint embeddings of the selected edge
type and the negative pairs reuse the sources with `n` randomly sampled
rows of the target type. -/
def compute_contrastive_loss (cos : List ℚ → List ℚ → ℚ)
    (sampler : ℕ → ℕ → List ℕ)
    (embeddings : String → List (List ℚ))
    (edge_index_dict : List (EdgeKey × (List ℕ × List ℕ))) : LossTensor :=
  match findPrecedes edge_index_dict with
  | none => ⟨0, false⟩
  | some ((source_type, _, target_type), (row0, row1)) =>
      if row0.length = 0 then ⟨0, false⟩
      else
        let source_embeds := row0.map (getRow (embeddings source_type))
        let target_embeds := row1.map (getRow (embeddings target_type))
        let pos_similarity := List.zipWith cos source_embeds target_embeds
        let neg_target_indices :=
          sampler row0.length (embeddings target_type).length
        let neg_target_embeds :=
          neg_target_indices.map (getRow (embeddings target_type))
        let neg_similarity := List.zipWith cos source_embeds neg_target_embeds
        ⟨-(mean pos_similarity) + mean (neg_similarity.map relu), true⟩

/-- Errors surfaced by `GNNPatternDetector.train`: an exception from
`prepare_graph_data`, or the `RuntimeError` raised by `loss.backward()`
on a tensor that does not require grad. -/
inductive TrainError where
  | prep (e : PrepError)
  | backwardNoGrad
deriving DecidableEq, Repr

/-- The value returned by a completed `GNNPatternDetector.train` call:
the per-epoch loss list, and the fact that the checkpoint was saved
after the epoch loop (source lines 266-273). -/
structure TrainResult where
  losses : List ℚ
  checkpoint_written : Bool
deriving DecidableEq, Repr

/-- `GNNPatternDetector.train` (source lines 205-275).  `forwardAt ep`
stands for the model forward pass at epoch `ep` (the HGT stack output,
which evolves with the optimizer and is irrelevant to the claims), and
`samplerAt ep` for the fresh `torch.randint` draw of that epoch.  Each
epoch computes the contrastive loss and calls `loss.backward()`, which
raises when the loss does not require grad; the per-epoch loss values
are accumulated and the checkpoint is written only after the whole
epoch loop completes. -/
def train (forwardAt : ℕ → String → List (List ℚ))
    (cos : List ℚ → List ℚ → ℚ)
    (samplerAt : ℕ → ℕ → ℕ → List ℕ)
    (g : GraphJson) (epochs : ℕ) : Except TrainError TrainResult :=
  match prepare_graph_data g with
  | .error e => .error (.prep e)
  | .ok data =>
      match (List.range epochs).foldlM
          (fun acc ep =>
            let loss :=
              compute_contrastive_loss cos (samplerAt ep) (forwardAt ep)
                data.edge_index
            if loss.requires_grad then Except.ok (acc ++ [loss.val])
            else Except.error TrainError.backwardNoGrad)
          ([] : List ℚ) with
      | .error e => .error e
      | .ok losses => .ok ⟨losses, true⟩

/-- One entry of the pattern list built by `GNNPatternDetector.infer`
(source lines 375-381). -/
structure Pattern where
  pattern_type : String
  music_activity_idx : ℕ
  calendar_event_idx : ℕ
  confidence_score : ℚ
  correlation : ℚ
deriving DecidableEq, Repr, Inhabited

/-- Python `round` to the nearest integer, ties to even. -/
def roundHalfEven (x : ℚ) : ℤ :=
  let n := ⌊x⌋
  let r := x - (n : ℚ)
  if r < 1/2 then n
  else if 1/2 < r then n + 1
  else if n % 2 = 0 then n else n + 1

/-- Python `round(x, 2)`: round to two decimal places, ties to even. -/
def pyRound2 (x : ℚ) : ℚ := ((roundHalfEven (x * 100) : ℤ) : ℚ) / 100

/-- The pattern dict appended for a qualifying pair (source lines
375-381): `confidence_score = round(correlation * 100, 2)`. -/
def mkPattern (i j : ℕ) (c : ℚ) : Pattern :=
  ⟨"temporal_music_before_event", i, j, pyRound2 (c * 100), c⟩

/-- The enumeration-and-filter part of the `infer` pattern loop (source
lines 367-381): every `(music, event)` index pair is scored and kept
when the score is at least `min_confidence`.  `score i j` stands for
`self.model.predict_correlation(music_embeds[i], event_embeds[j]).item()`. -/
def candidatePatterns (score : ℕ → ℕ → ℚ) (nMusic nEvent : ℕ)
    (min_confidence : ℚ) : List Pattern :=
  (List.range nMusic).flatMap (fun i =>
    (List.range nEvent).filterMap (fun j =>
      if min_confidence ≤ score i j then some (mkPattern i j (score i j))
      else none))

/-- The comparator of `sorted(patterns, key=lambda x:
x['confidence_score'], reverse=True)`. -/
def patGE (a b : Pattern) : Prop := b.confidence_score ≤ a.confidence_score

instance : DecidableRel patGE :=
  fun a b => inferInstanceAs (Decidable (b.confidence_score ≤ a.confidence_score))

/-- The ranking step of `infer` (source lines 384): Python's `sorted` is
stable, and with `reverse=True` equal keys keep their enumeration
order, which is exactly `List.insertionSort` with the reversed
comparator; the sorted list is truncated to `top_k`. -/
def infer_patterns (score : ℕ → ℕ → ℚ) (nMusic nEvent : ℕ)
    (min_confidence : ℚ) (top_k : ℕ) : List Pattern :=
  (List.insertionSort patGE
    (candidatePatterns score nMusic nEvent min_confidence)).take top_k

/-- The slice of a model checkpoint that the claims depend on: the node
and edge type vocabularies recorded at training time (`metadata`). -/
structure Checkpoint where
  node_types : List String
  edge_types : List EdgeKey
deriving DecidableEq, Repr

/-- The value returned by `GNNPatternDetector.generate_embeddings`
(source lines 429-432). -/
structure EmbedResult where
  embeddings : List (List ℚ)
  nodeIds : List String
deriving DecidableEq, Repr

/-- `x_dict = {key: data[key].x for key in node_types}` (source lines
353 and 410): the dict is built over the checkpoint's recorded node
types only; a recorded type with no data in the graph raises
`AttributeError` at `data[key].x`. -/
def xdictFor (ckptTypes : List String)
    (x : List (String × List (List ℚ))) :
    Except PrepError (List (String × List (List ℚ))) :=
  ckptTypes.mapM (fun t =>
    match lookupA x t with
    | some m => .ok (t, m)
    | none => .error (.attrError t))

/-- `edge_index_dict = {key: data[key].edge_index for key in
edge_types}` (source lines 354 and 411), over the checkpoint's recorded
edge types. -/
def edictFor (ckptTypes : List EdgeKey)
    (ei : List (EdgeKey × (List ℕ × List ℕ))) :
    Except PrepError (List (EdgeKey × (List ℕ × List ℕ))) :=
  ckptTypes.mapM (fun t =>
    match lookupA ei t with
    | some m => .ok (t, m)
    | none => .error (.attrError t.2.1))

/-- `UserBehaviorGNN.forward` (source lines 94-122).  The first step
(source lines 109-113) keeps only the node types that own an entry in
`self.node_embeddings`, i.e. the types the model was initialized with;
`layerFn` stands for the composition of the per-type input projections
and the HGT layer stack, which is irrelevant to the claims. -/
def forwardModel
    (layerFn : List (String × List (List ℚ)) →
      List (EdgeKey × (List ℕ × List ℕ)) → List (String × List (List ℚ)))
    (modelTypes : List String)
    (x_dict : List (String × List (List ℚ)))
    (edge_index_dict : List (EdgeKey × (List ℕ × List ℕ))) :
    List (String × List (List ℚ)) :=
  layerFn (x_dict.filter (fun p => modelTypes.contains p.1)) edge_index_dict

/-- One iteration of the export loop of `generate_embeddings` (source
lines 420-427): when the node type is present in the forward output,
extend the flat embedding list with its rows and append the synthetic
ids `type_i`; otherwise leave the accumulators unchanged. -/
def collectStep (embeddings : List (String × List (List ℚ)))
    (acc : List (List ℚ) × List String) (t : String) :
    List (List ℚ) × List String :=
  match lookupA embeddings t with
  | some embeds =>
      (acc.1 ++ embeds,
       acc.2 ++ (List.range embeds.length).map
         (fun i => t ++ "_" ++ toString i))
  | none => acc

/-- The export loop of `generate_embeddings` (source lines 417-427):
iterate over the checkpoint's node types, collecting embeddings and
synthetic node ids. -/
def collectEmbeddings (ckptTypes : List String)
    (embeddings : List (String × List (List ℚ))) :
    List (List ℚ) × List String :=
  ckptTypes.foldl (collectStep embeddings) ([], [])

/-- `GNNPatternDetector.generate_embeddings` (source lines 388-432):
load the checkpoint vocabulary, rebuild the graph, run the forward pass
over the recorded vocabulary, and export every produced row with a
synthetic `type_index` id. -/
def generate_embeddings
    (layerFn : List (String × List (List ℚ)) →
      List (EdgeKey × (List ℕ × List ℕ)) → List (String × List (List ℚ)))
    (ckpt : Checkpoint) (g : GraphJson) : Except PrepError EmbedResult :=
  match prepare_graph_data g with
  | .error e => .error e
  | .ok data =>
      match xdictFor ckpt.node_types data.x with
      | .error e => .error e
      | .ok x_dict =>
          match edictFor ckpt.edge_types data.edge_index with
          | .error e => .error e
          | .ok edge_index_dict =>
              let embeddings :=
                forwardModel layerFn ckpt.node_types x_dict edge_index_dict
              let collected := collectEmbeddings ckpt.node_types embeddings
              .ok ⟨collected.1, collected.2⟩

/-- One JSON document emitted by the process: either the `{error: msg}`
shape or a successful result payload. -/
inductive OutDoc where
  | errorDoc (msg : String)
  | resultDoc (payload : String)
deriving DecidableEq, Repr

/-- The observable outcome of one CLI invocation: the JSON documents
printed to stdout and to stderr, and the process exit code. -/
structure ProcResult where
  stdout : List OutDoc
  stderr : List OutDoc
  exit_code : ℕ
deriving DecidableEq, Repr

/-- The command dispatch of `main` (source lines 443-488).  `exec cmd`
stands for the detector call performed for a known command (`train`,
`infer` or `embed`), returning a result payload or raising with a
message.  A successful command prints its JSON result on stdout and the
process exits 0; an exception is caught and printed as `{error: msg}`
on stderr with exit code 1; an unknown command produces the
`{error: Unknown command}` document on stdout through the normal result
path, and the process still exits 0. -/
def main_dispatch (exec : String → Except String String)
    (command : String) : ProcResult :=
  if command = "train" ∨ command = "infer" ∨ command = "embed" then
    match exec command with
    | .ok payload => ⟨[.resultDoc payload], [], 0⟩
    | .error msg => ⟨[], [.errorDoc msg], 1⟩
  else if command = "check" then ⟨[.resultDoc "check"], [], 0⟩
  else ⟨[.errorDoc ("Unknown command: " ++ command)], [], 0⟩

/-- `main` (source lines 435-488): with fewer than three `sys.argv`
entries the usage error is printed on stdout and the process exits 1;
otherwise the command named by `sys.argv[1]` is dispatched. -/
def main_cli (argv : List String) (exec : String → Except String String) :
    ProcResult :=
  match argv with
  | _prog :: command :: _data :: _ => main_dispatch exec command
  | _ => ⟨[.errorDoc "Usage: python gnn_model.py <command> <json_data>"], [], 1⟩

/-- Dot product over the reals (one output unit of `nn.Linear`). -/
def dotR (v w : List ℝ) : ℝ := (List.zipWith (fun a b => a * b) v w).sum

/-- `nn.Linear` with weight rows `W` and bias `b`. -/
def linearR (W : List (List ℝ)) (b : List ℝ) (x : List ℝ) : List ℝ :=
  (W.zip b).map (fun wb => dotR wb.1 x + wb.2)

/-- `nn.ReLU` applied componentwise. -/
def reluR (v : List ℝ) : List ℝ := v.map (fun x => max 0 x)

/-- `nn.Dropout`: the identity in eval mode, a componentwise rescaling
by a random mask in train mode; covered by an arbitrary mask vector. -/
def dropoutR (mask : List ℝ) (v : List ℝ) : List ℝ :=
  List.zipWith (fun a b => a * b) mask v

/-- `nn.Sigmoid` on a scalar. -/
noncomputable def sigmoidR (x : ℝ) : ℝ := 1 / (1 + Real.exp (-x))

/-- The parameters of `UserBehaviorGNN.correlation_predictor` (source
lines 73-82): `Linear(2h, 256)`, `Linear(256, 128)`, `Linear(128, 1)`. -/
structure HeadParams where
  w1 : List (List ℝ)
  b1 : List ℝ
  w2 : List (List ℝ)
  b2 : List ℝ
  w3 : List (List ℝ)
  b3 : List ℝ

/-- `UserBehaviorGNN.correlation_predictor` (source lines 73-82):
`Linear → ReLU → Dropout → Linear → ReLU → Dropout → Linear → Sigmoid`. -/
noncomputable def correlation_predictor (p : HeadParams)
    (m1 m2 : List ℝ) (x : List ℝ) : List ℝ :=
  let h1 := dropoutR m1 (reluR (linearR p.w1 p.b1 x))
  let h2 := dropoutR m2 (reluR (linearR p.w2 p.b2 h1))
  (linearR p.w3 p.b3 h2).map sigmoidR

/-- `UserBehaviorGNN.predict_correlation` (source lines 124-135):
concatenate the two node embeddings and run the correlation head. -/
noncomputable def predict_correlation (p : HeadParams) (m1 m2 : List ℝ)
    (node_embed_1 node_embed_2 : List ℝ) : List ℝ :=
  correlation_predictor p m1 m2 (node_embed_1 ++ node_embed_2)

/-- The comparator `patGE` is total (any two confidence scores compare). -/
instance : IsTotal Pattern patGE :=
  ⟨fun a b => le_total b.confidence_score a.confidence_score⟩

/-- The comparator `patGE` is transitive. -/
instance : IsTrans Pattern patGE :=
  ⟨fun _ _ _ h1 h2 => le_trans h2 h1⟩

/-- Concrete graph with two nodes and one `PRECEDES` edge, used to
instantiate hypotheses of the loss and builder theorems. -/
def gPrec : GraphJson :=
  ⟨[⟨"m", "MusicActivity", [1, 0]⟩, ⟨"c", "CalendarEvent", [0, 1]⟩],
   [⟨"m", "c", "PRECEDES"⟩]⟩

/-- The `HeteroData` that `prepare_graph_data` builds from `gPrec`. -/
def dPrec : HeteroData :=
  ⟨[("MusicActivity", [[1, 0]]), ("CalendarEvent", [[0, 1]])],
   [(("MusicActivity", "PRECEDES", "CalendarEvent"), ([0], [0]))]⟩

/-- Concrete graph whose single edge relation does not contain
`PRECEDES`: the degenerate training input of the spec. -/
def gNoPrec : GraphJson :=
  ⟨[⟨"a", "MusicActivity", [1, 0]⟩, ⟨"b", "CalendarEvent", [0, 1]⟩],
   [⟨"a", "b", "FOLLOWS"⟩]⟩

/-- A trivial stand-in for the model forward pass. -/
def fwd0 : ℕ → String → List (List ℚ) := fun _ _ => []

/-- A trivial stand-in for `F.cosine_similarity` on one pair of rows. -/
def cos0 : List ℚ → List ℚ → ℚ := fun _ _ => 0

/-- A `torch.randint` stand-in drawing `n` zero indices. -/
def smp0 : ℕ → ℕ → List ℕ := fun n _ => List.replicate n 0

/-- A per-epoch `torch.randint` stand-in drawing no indices. -/
def smpe0 : ℕ → ℕ → ℕ → List ℕ := fun _ _ _ => []

/-- Embeddings stand-in assigning every type the same two rows. -/
def emb0 : String → List (List ℚ) := fun _ => [[1, 0], [0, 1]]

/-- A score function whose two scores differ by less than the rounding
grain of `round(score * 100, 2)`: both round to the same confidence. -/
def cScoreC3 : ℕ → ℕ → ℚ := fun _ j =>
  if j = 0 then mkRat 800001 1000000 else mkRat 800004 1000000

/-- A detector call stand-in that always succeeds. -/
def execOk0 : String → Except String String := fun _ => .ok "{}"

/-- A detector call stand-in that always raises with message `boom`. -/
def execFail0 : String → Except String String := fun _ => .error "boom"

/-- Identity stand-in for the embedder plus HGT layer stack. -/
def layer0 : List (String × List (List ℚ)) →
    List (EdgeKey × (List ℕ × List ℕ)) → List (String × List (List ℚ)) :=
  fun xd _ => xd

/-- A checkpoint whose vocabulary records the single node type `A`. -/
def ckpt0 : Checkpoint := ⟨["A"], []⟩

/-- A graph holding one node of type `A` and one of type `Foo`, a type
absent from `ckpt0`'s vocabulary. -/
def gFoo : GraphJson := ⟨[⟨"a1", "A", [1]⟩, ⟨"f1", "Foo", [2]⟩], []⟩

/-- Degenerate correlation-head parameters: the last linear layer has
one output unit with empty weight row and zero bias. -/
def head0 : HeadParams := ⟨[], [], [], [], [[]], [0]⟩

/-- A graph whose two nodes share a type but have feature vectors of
different lengths (a ragged feature matrix). -/
def gRagged : GraphJson :=
  ⟨[⟨"a", "T", [1]⟩, ⟨"b", "T", [1, 2]⟩], []⟩

/-! Association-list lemmas about the Python-dict model. -/

theorem lookupA_setA {κ β : Type} [DecidableEq κ]
    (l : List (κ × β)) (k : κ) (v : β) (k2 : κ) :
    lookupA (setA l k v) k2 = if k = k2 then some v else lookupA l k2 := by
  induction l with
  | nil => simp [setA, lookupA]
  | cons hd tl ih =>
      obtain ⟨k0, v0⟩ := hd
      by_cases h0 : k0 = k
      · subst h0
        by_cases h2 : k0 = k2 <;> simp [setA, lookupA, h2]
      · by_cases h2 : k0 = k2
        · subst h2
          have : ¬ k = k0 := fun h => h0 h.symm
          simp [setA, lookupA, h0, this]
        · simp [setA, lookupA, h0, h2, ih]

theorem lookupA_appendGroup {κ γ : Type} [DecidableEq κ]
    (l : List (κ × List γ)) (k : κ) (v : γ) (k2 : κ) :
    lookupA (appendGroup l k v) k2 =
      if k = k2 then some (((lookupA l k2).getD []) ++ [v])
      else lookupA l k2 := by
  induction l with
  | nil => simp [appendGroup, lookupA]
  | cons hd tl ih =>
      obtain ⟨k0, vs⟩ := hd
      by_cases h0 : k0 = k
      · subst h0
        by_cases h2 : k0 = k2 <;> simp [appendGroup, lookupA, h2]
      · by_cases h2 : k0 = k2
        · subst h2
          have : ¬ k = k0 := fun h => h0 h.symm
          simp [appendGroup, lookupA, h0, this]
        · simp [appendGroup, lookupA, h0, h2, ih]

theorem lookupA_mem {κ β : Type} [DecidableEq κ]
    {l : List (κ × β)} {k : κ} {v : β}
    (h : lookupA l k = some v) : (k, v) ∈ l := by
  induction l with
  | nil => simp [lookupA] at h
  | cons hd tl ih =>
      obtain ⟨k0, v0⟩ := hd
      by_cases h0 : k0 = k
      · subst h0
        simp [lookupA] at h
        simp [h]
      · simp [lookupA, h0] at h
        exact List.mem_cons_of_mem _ (ih h)

/-! The node-grouping loop: per-type feature rows and id index. -/

theorem byType_foldl (ns : List NodeJson) (st : NodeIndex) (t : String) :
    (lookupA (ns.foldl addNode st).byType t).getD [] =
      (lookupA st.byType t).getD [] ++
        (ns.filter (fun n => n.type = t)).map NodeJson.features := by
  induction ns generalizing st with
  | nil => simp
  | cons n ns ih =>
      rw [List.foldl_cons, ih]
      by_cases h : n.type = t
      · simp [addNode, lookupA_appendGroup, h, List.filter_cons]
      · simp [addNode, lookupA_appendGroup, h, List.filter_cons]

theorem idToIdx_foldl_ne (ns : List NodeJson) (st : NodeIndex) (i : String)
    (h : ∀ n ∈ ns, n.id ≠ i) :
    lookupA (ns.foldl addNode st).idToIdx i = lookupA st.idToIdx i := by
  induction ns generalizing st with
  | nil => simp
  | cons n ns ih =>
      rw [List.foldl_cons, ih _ (fun m hm => h m (List.mem_cons_of_mem _ hm))]
      have hn : n.id ≠ i := h n (List.mem_cons_self _ _)
      simp [addNode, lookupA_setA, hn]

theorem slot_correct (ns : List NodeJson) :
    ∀ (st : NodeIndex),
      (ns.map NodeJson.id).Nodup →
      (∀ n ∈ ns, lookupA st.idToIdx n.id = none) →
      ∀ n ∈ ns, ∃ i,
        lookupA (ns.foldl addNode st).idToIdx n.id = some (n.type, i) ∧
        ((lookupA (ns.foldl addNode st).byType n.type).getD [])[i]? =
          some n.features := by
  induction ns with
  | nil => intro st _ _ n hn; simp at hn
  | cons hd tl ih =>
      intro st hnd hnone n hn
      have hhd_notin : hd.id ∉ tl.map NodeJson.id := by
        simp only [List.map_cons, List.nodup_cons] at hnd
        exact hnd.1
      rcases List.mem_cons.mp hn with rfl | hmem
      · refine ⟨((lookupA st.byType n.type).getD []).length, ?_, ?_⟩
        · rw [List.foldl_cons,
            idToIdx_foldl_ne tl (addNode st n) n.id
              (fun m hm heq => hhd_notin (heq ▸ List.mem_map_of_mem NodeJson.id hm))]
          simp [addNode, lookupA_setA]
        · rw [List.foldl_cons, byType_foldl]
          have hstep : (lookupA (addNode st n).byType n.type).getD [] =
              (lookupA st.byType n.type).getD [] ++ [n.features] := by
            simp [addNode, lookupA_appendGroup]
          rw [hstep, List.append_assoc]
          rw [List.getElem?_append_right (le_refl _)]
          simp
      · have hstnone : ∀ m ∈ tl, lookupA (addNode st hd).idToIdx m.id = none := by
          intro m hm
          have hne : hd.id ≠ m.id := by
            intro heq
            exact hhd_notin (heq ▸ List.mem_map_of_mem NodeJson.id hm)
          simp [addNode, lookupA_setA, hne]
          exact hnone m (List.mem_cons_of_mem _ hm)
        have hndtl : (tl.map NodeJson.id).Nodup := by
          simp [List.nodup_cons] at hnd
          exact hnd.2
        rw [List.foldl_cons]
        exact ih (addNode st hd) hndtl hstnone n hmem

theorem prep_ok_x {g : GraphJson} {d : HeteroData}
    (h : prepare_graph_data g = Except.ok d) :
    d.x = (buildNodes g.nodes).byType := by
  simp only [prepare_graph_data] at h
  split at h
  · exact absurd h (by simp)
  · split at h
    · exact absurd h (by simp)
    · injection h with h
      rw [← h]

theorem prep_edge_lengths {g : GraphJson} {d : HeteroData}
    (h : prepare_graph_data g = Except.ok d) :
    ∀ p ∈ d.edge_index, p.2.1.length = p.2.2.length := by
  simp only [prepare_graph_data] at h
  split at h
  · exact absurd h (by simp)
  · split at h
    · exact absurd h (by simp)
    · injection h with h
      rw [← h]
      intro p hp
      rcases List.mem_map.mp hp with ⟨q, _, rfl⟩
      simp [List.unzip_eq_map]

/-- C8: for every valid payload (pairwise-distinct node ids, successful
construction), the graph builder maps each node's id to a
`(type, localIndex)` pair and row `localIndex` of that type's feature
matrix in the built `HeteroData` is exactly the node's original feature
vector. -/
theorem graph_builder_slot_roundtrip (g : GraphJson) (d : HeteroData)
    (hids : (g.nodes.map NodeJson.id).Nodup)
    (hprep : prepare_graph_data g = Except.ok d) :
    ∀ n ∈ g.nodes, ∃ i,
      lookupA (buildNodes g.nodes).idToIdx n.id = some (n.type, i) ∧
      ((lookupA d.x n.type).getD [])[i]? = some n.features := by
  have hx := prep_ok_x hprep
  rw [hx]
  exact slot_correct g.nodes ⟨[], []⟩ hids (by intro n _; rfl)

/-- Witness for C8: in the concrete graph `gPrec`, node `m` of type
`MusicActivity` gets a slot whose feature-matrix row is `[1, 0]`. -/
theorem graph_builder_slot_roundtrip_witness :
    ∃ i, lookupA (buildNodes gPrec.nodes).idToIdx "m" =
        some ("MusicActivity", i) ∧
      ((lookupA dPrec.x "MusicActivity").getD [])[i]? = some [1, 0] :=
  graph_builder_slot_roundtrip gPrec dPrec (by decide) rfl
    ⟨"m", "MusicActivity", [1, 0]⟩ (by simp [gPrec])

/-! Error paths of `prepare_graph_data`. -/

theorem uniformRows_all {rows : List (List ℚ)} (h : uniformRows rows = true) :
    ∀ a ∈ rows, ∀ b ∈ rows, a.length = b.length := by
  cases rows with
  | nil => simp
  | cons r rest =>
      intro a ha b hb
      simp only [uniformRows, List.all_eq_true, decide_eq_true_eq] at h
      have hlen : ∀ x ∈ r :: rest, x.length = r.length := by
        intro x hx
        rcases List.mem_cons.mp hx with rfl | hx
        · rfl
        · exact h x hx
      rw [hlen a ha, hlen b hb]

theorem uniformRows_of_all {rows : List (List ℚ)}
    (h : ∀ a ∈ rows, ∀ b ∈ rows, a.length = b.length) :
    uniformRows rows = true := by
  cases rows with
  | nil => rfl
  | cons r rest =>
      simp only [uniformRows, List.all_eq_true, decide_eq_true_eq]
      intro x hx
      exact h x (List.mem_cons_of_mem _ hx) r (List.mem_cons_self _ _)

theorem checkTensors_error {l : List (String × List (List ℚ))}
    (h : ∃ e ∈ l, uniformRows e.2 = false) :
    checkTensors l = Except.error PrepError.valueError := by
  induction l with
  | nil => simp at h
  | cons hd tl ih =>
      obtain ⟨k, rows⟩ := hd
      obtain ⟨e, he, hbad⟩ := h
      by_cases hu : uniformRows rows = true
      · have hetl : e ∈ tl := by
          rcases List.mem_cons.mp he with rfl | h2
          · rw [hu] at hbad; cases hbad
          · exact h2
        simp only [checkTensors, hu, if_true]
        exact ih ⟨e, hetl, hbad⟩
      · simp [checkTensors, hu]

theorem checkTensors_ok {l : List (String × List (List ℚ))}
    (h : ∀ e ∈ l, uniformRows e.2 = true) :
    checkTensors l = Except.ok () := by
  induction l with
  | nil => rfl
  | cons hd tl ih =>
      obtain ⟨k, rows⟩ := hd
      have hu : uniformRows rows = true := h (k, rows) (List.mem_cons_self _ _)
      simp only [checkTensors, hu, if_true]
      exact ih (fun e he => h e (List.mem_cons_of_mem _ he))

theorem appendGroup_keys {κ γ : Type} [DecidableEq κ]
    (l : List (κ × List γ)) (k : κ) (v : γ) :
    (appendGroup l k v).map Prod.fst =
      if k ∈ l.map Prod.fst then l.map Prod.fst
      else l.map Prod.fst ++ [k] := by
  induction l with
  | nil => simp [appendGroup]
  | cons hd tl ih =>
      obtain ⟨k0, vs⟩ := hd
      by_cases h0 : k0 = k
      · subst h0
        simp [appendGroup]
      · have h0s : ¬ k = k0 := fun h => h0 h.symm
        by_cases hk : k ∈ tl.map Prod.fst <;>
          simp [appendGroup, h0, h0s, hk, ih, List.mem_cons]

theorem appendGroup_keys_nodup {κ γ : Type} [DecidableEq κ]
    {l : List (κ × List γ)} (h : (l.map Prod.fst).Nodup) (k : κ) (v : γ) :
    ((appendGroup l k v).map Prod.fst).Nodup := by
  rw [appendGroup_keys]
  split
  · exact h
  · rename_i hk
    rw [← List.concat_eq_append]
    exact h.concat hk

theorem byType_keys_nodup (ns : List NodeJson) :
    ∀ (st : NodeIndex), (st.byType.map Prod.fst).Nodup →
      (((ns.foldl addNode st).byType).map Prod.fst).Nodup := by
  induction ns with
  | nil => intro st h; exact h
  | cons n tl ih =>
      intro st h
      rw [List.foldl_cons]
      exact ih (addNode st n) (appendGroup_keys_nodup h n.type n.features)

theorem lookupA_of_mem_nodup {κ β : Type} [DecidableEq κ]
    {l : List (κ × β)} (h : (l.map Prod.fst).Nodup) {k : κ} {v : β}
    (hm : (k, v) ∈ l) : lookupA l k = some v := by
  induction l with
  | nil => simp at hm
  | cons hd tl ih =>
      obtain ⟨k0, v0⟩ := hd
      rcases List.mem_cons.mp hm with heq | hm2
      · obtain ⟨rfl, rfl⟩ := Prod.mk.injEq .. ▸ heq
        · simp [lookupA]
      · have hk0 : k0 ≠ k := by
          intro heq
          have hmem : k ∈ tl.map Prod.fst :=
            List.mem_map.mpr ⟨(k, v), hm2, rfl⟩
          rw [← heq] at hmem
          simp only [List.map_cons, List.nodup_cons] at h
          exact h.1 hmem
        simp only [lookupA, hk0, if_false]
        have htl : (tl.map Prod.fst).Nodup := by
          simp only [List.map_cons, List.nodup_cons] at h
          exact h.2
        exact ih htl hm2

theorem idToIdx_none_iff (ns : List NodeJson) :
    ∀ (st : NodeIndex) (i : String),
      lookupA (ns.foldl addNode st).idToIdx i = none ↔
        (lookupA st.idToIdx i = none ∧ i ∉ ns.map NodeJson.id) := by
  induction ns with
  | nil => simp
  | cons n tl ih =>
      intro st i
      rw [List.foldl_cons, ih]
      by_cases hni : n.id = i
      · simp [addNode, lookupA_setA, hni]
      · have hin : i ≠ n.id := fun h => hni h.symm
        simp [addNode, lookupA_setA, hni, List.mem_cons, hin]

theorem addEdge_error_shape {idToIdx : List (String × (String × ℕ))}
    {groups : List (EdgeKey × List (ℕ × ℕ))} {e : EdgeJson} {err : PrepError}
    (h : addEdge idToIdx groups e = Except.error err) :
    ∃ s, err = PrepError.keyError s := by
  unfold addEdge at h
  split at h
  · injection h with h
    exact ⟨e.source, h.symm⟩
  · split at h
    · injection h with h
      exact ⟨e.target, h.symm⟩
    · cases h

theorem buildEdges_error (idToIdx : List (String × (String × ℕ))) :
    ∀ (es : List EdgeJson) (groups : List (EdgeKey × List (ℕ × ℕ))),
      (∃ e ∈ es, lookupA idToIdx e.source = none ∨
        lookupA idToIdx e.target = none) →
      ∃ s, buildEdges idToIdx groups es =
        Except.error (PrepError.keyError s) := by
  intro es
  induction es with
  | nil => intro groups h; simp at h
  | cons e0 rest ih =>
      intro groups h
      obtain ⟨e, he, hbad⟩ := h
      cases haddAll : addEdge idToIdx groups e0 with
      | error err =>
          obtain ⟨s, rfl⟩ := addEdge_error_shape haddAll
          exact ⟨s, by simp [buildEdges, haddAll]⟩
      | ok groups2 =>
          have hrest : e ∈ rest := by
            rcases List.mem_cons.mp he with rfl | h2
            · exfalso
              unfold addEdge at haddAll
              rcases hbad with hb | hb
              · rw [hb] at haddAll
                cases haddAll
              · cases hsrc : lookupA idToIdx e.source with
                | none => rw [hsrc] at haddAll; cases haddAll
                | some p =>
                    obtain ⟨sT, sI⟩ := p
                    rw [hsrc, hb] at haddAll
                    cases haddAll
            · exact h2
          have hstep : buildEdges idToIdx groups (e0 :: rest) =
              buildEdges idToIdx groups2 rest := by
            simp [buildEdges, haddAll]
          rw [hstep]
          exact ih groups2 ⟨e, hrest, hbad⟩

theorem byType_buildNodes (ns : List NodeJson) (t : String) :
    (lookupA (buildNodes ns).byType t).getD [] =
      (ns.filter (fun n => n.type = t)).map NodeJson.features := by
  have h := byType_foldl ns ⟨[], []⟩ t
  simpa [buildNodes, lookupA] using h

/-- C9 (amended): a feature-length mismatch within a node type makes
construction fail with `ValueError` (the spec's `SchemaError`); with
uniform features, an edge whose source or target id does not resolve
makes construction fail with a `KeyError` (the spec's
`GraphConstructionError`); but an empty node list does NOT fail
construction: the empty payload builds an empty graph successfully. -/
theorem prepare_errors_amended :
    (∀ (g : GraphJson) (n1 n2 : NodeJson), n1 ∈ g.nodes → n2 ∈ g.nodes →
       n1.type = n2.type → n1.features.length ≠ n2.features.length →
       prepare_graph_data g = Except.error PrepError.valueError) ∧
    (∀ (g : GraphJson) (e : EdgeJson), e ∈ g.edges →
       (∀ n1 ∈ g.nodes, ∀ n2 ∈ g.nodes, n1.type = n2.type →
         n1.features.length = n2.features.length) →
       (e.source ∉ g.nodes.map NodeJson.id ∨
        e.target ∉ g.nodes.map NodeJson.id) →
       ∃ s, prepare_graph_data g = Except.error (PrepError.keyError s)) ∧
    prepare_graph_data ⟨[], []⟩ = Except.ok ⟨[], []⟩ := by
  refine ⟨?_, ?_, rfl⟩
  · intro g n1 n2 h1 h2 ht hlen
    have hchar := byType_buildNodes g.nodes n1.type
    have hmem1 : n1.features ∈
        (lookupA (buildNodes g.nodes).byType n1.type).getD [] := by
      rw [hchar]
      exact List.mem_map.mpr
        ⟨n1, List.mem_filter.mpr ⟨h1, by simp⟩, rfl⟩
    have hmem2 : n2.features ∈
        (lookupA (buildNodes g.nodes).byType n1.type).getD [] := by
      rw [hchar]
      exact List.mem_map.mpr
        ⟨n2, List.mem_filter.mpr ⟨h2, by simp [ht]⟩, rfl⟩
    have hbadrows :
        uniformRows ((lookupA (buildNodes g.nodes).byType n1.type).getD [])
          = false := by
      rcases Bool.eq_false_or_eq_true
        (uniformRows ((lookupA (buildNodes g.nodes).byType n1.type).getD []))
        with h' | h'
      · exact absurd (uniformRows_all h' n1.features hmem1 n2.features hmem2)
          hlen
      · exact h'
    cases hlook : lookupA (buildNodes g.nodes).byType n1.type with
    | none =>
        exfalso
        rw [hlook] at hmem1
        simp at hmem1
    | some rows0 =>
        have hr0 : ((some rows0).getD ([] : List (List ℚ))) = rows0 := rfl
        have hentry : (n1.type, rows0) ∈ (buildNodes g.nodes).byType :=
          lookupA_mem hlook
        have hbad0 : uniformRows rows0 = false := by
          rw [hlook] at hbadrows
          simpa using hbadrows
        have hct := checkTensors_error ⟨(n1.type, rows0), hentry, hbad0⟩
        simp [prepare_graph_data, hct]
  · intro g e he hyp hbad
    have hck : checkTensors (buildNodes g.nodes).byType = Except.ok () := by
      apply checkTensors_ok
      intro entry hentry
      obtain ⟨t, rows0⟩ := entry
      have hkeys : (((buildNodes g.nodes).byType).map Prod.fst).Nodup :=
        byType_keys_nodup g.nodes ⟨[], []⟩ (by simp)
      have hlook : lookupA (buildNodes g.nodes).byType t = some rows0 :=
        lookupA_of_mem_nodup hkeys hentry
      have hchar : rows0 =
          (g.nodes.filter (fun n => n.type = t)).map NodeJson.features := by
        have hbt := byType_buildNodes g.nodes t
        rw [hlook] at hbt
        simpa using hbt
      apply uniformRows_of_all
      intro a ha b hb
      rw [hchar] at ha hb
      rcases List.mem_map.mp ha with ⟨m1, hm1, rfl⟩
      rcases List.mem_map.mp hb with ⟨m2, hm2, rfl⟩
      have hm1f := List.mem_filter.mp hm1
      have hm2f := List.mem_filter.mp hm2
      have httt : m1.type = m2.type := by
        have e1 : m1.type = t := by simpa using hm1f.2
        have e2 : m2.type = t := by simpa using hm2f.2
        rw [e1, e2]
      exact hyp m1 hm1f.1 m2 hm2f.1 httt
    have hnoneempty : lookupA (⟨[], []⟩ : NodeIndex).idToIdx e.source = none :=
      rfl
    have hsome : lookupA (buildNodes g.nodes).idToIdx e.source = none ∨
        lookupA (buildNodes g.nodes).idToIdx e.target = none := by
      rcases hbad with hb | hb
      · left
        exact (idToIdx_none_iff g.nodes ⟨[], []⟩ e.source).mpr ⟨rfl, hb⟩
      · right
        exact (idToIdx_none_iff g.nodes ⟨[], []⟩ e.target).mpr ⟨rfl, hb⟩
    obtain ⟨s, hbe⟩ :=
      buildEdges_error (buildNodes g.nodes).idToIdx g.edges [] ⟨e, he, hsome⟩
    exact ⟨s, by simp [prepare_graph_data, hck, hbe]⟩

/-- Witness for C9 (amended): the concrete ragged graph `gRagged` fails
construction with `ValueError`. -/
theorem prepare_errors_amended_witness :
    prepare_graph_data gRagged = Except.error PrepError.valueError :=
  prepare_errors_amended.1 gRagged ⟨"a", "T", [1]⟩ ⟨"b", "T", [1, 2]⟩
    (by simp [gRagged]) (by simp [gRagged]) rfl (by decide)

/-- Counterexample for C9 as stated: a payload with an empty node list
does not fail construction with a `SchemaError`; it constructs an empty
graph successfully. -/
theorem empty_nodes_construction_succeeds :
    prepare_graph_data ⟨[], []⟩ = Except.ok ⟨[], []⟩ ∧
    (prepare_graph_data ⟨[], []⟩).isOk = true :=
  ⟨rfl, rfl⟩

theorem foldlM_first_error {α σ ε : Type} (f : σ → α → Except ε σ)
    (a : α) (l : List α) (s : σ) (e : ε) (h : f s a = Except.error e) :
    (a :: l).foldlM f s = Except.error e := by
  rw [List.foldlM_cons, h]
  rfl

/-- C10: the loss designates the first edge type, in dict iteration
order, whose relation contains `PRECEDES` as a substring (so
`NOT_PRECEDES` qualifies); when no edge type matches, the loss is the
constant zero tensor; and the loss depends on the edge dict only
through that first match, so all later matches are ignored. -/
theorem precedes_key_selection :
    strHasPRECEDES "NOT_PRECEDES" = true ∧
    (∀ (cosSim : List ℚ → List ℚ → ℚ) (sampler : ℕ → ℕ → List ℕ)
       (e : String → List (List ℚ)) (d : List (EdgeKey × (List ℕ × List ℕ))),
       (∀ p ∈ d, strHasPRECEDES p.1.2.1 = false) →
       compute_contrastive_loss cosSim sampler e d = ⟨0, false⟩) ∧
    (∀ (k : EdgeKey) (ei : List ℕ × List ℕ)
       (rest : List (EdgeKey × (List ℕ × List ℕ))),
       strHasPRECEDES k.2.1 = true →
       findPrecedes ((k, ei) :: rest) = some (k, ei)) ∧
    (∀ (cosSim : List ℚ → List ℚ → ℚ) (sampler : ℕ → ℕ → List ℕ)
       (e : String → List (List ℚ))
       (d1 d2 : List (EdgeKey × (List ℕ × List ℕ))),
       findPrecedes d1 = findPrecedes d2 →
       compute_contrastive_loss cosSim sampler e d1 =
         compute_contrastive_loss cosSim sampler e d2) := by
  refine ⟨by decide, ?_, ?_, ?_⟩
  · intro cosSim sampler e d h
    have hn : findPrecedes d = none := by
      apply List.find?_eq_none.mpr
      intro x hx
      simp [h x hx]
    unfold compute_contrastive_loss
    rw [hn]
  · intro k ei rest h
    exact List.find?_cons_of_pos _ (by simpa using h)
  · intro cosSim sampler e d1 d2 h
    unfold compute_contrastive_loss
    rw [h]

/-- Witness for C10: a dict whose only relation is `FOLLOWS` yields the
constant zero loss tensor. -/
theorem precedes_key_selection_witness :
    compute_contrastive_loss cos0 smp0 emb0
      [(("A", "FOLLOWS", "B"), ([0], [0]))] = ⟨0, false⟩ :=
  precedes_key_selection.2.1 cos0 smp0 emb0
    [(("A", "FOLLOWS", "B"), ([0], [0]))] (by decide)

/-- C1 (code bug): on a graph with zero edges whose relation contains
`PRECEDES`, `compute_contrastive_loss` returns `torch.tensor(0.0)`,
which does not require grad, so the very first `loss.backward()` call
raises a `RuntimeError` ("element 0 of tensors does not require grad
and does not have a grad_fn"): `train` aborts with an error instead of
completing with zero losses, and no checkpoint is written. -/
theorem train_zero_precedes_edges_raises :
    ∀ epochs, 1 ≤ epochs →
      train fwd0 cos0 smpe0 gNoPrec epochs =
        Except.error TrainError.backwardNoGrad := by
  intro epochs h
  obtain ⟨n, rfl⟩ : ∃ n, epochs = n + 1 :=
    ⟨epochs - 1, (Nat.succ_pred_eq_of_pos h).symm⟩
  have hprep : prepare_graph_data gNoPrec = Except.ok
      ⟨[("MusicActivity", [[1, 0]]), ("CalendarEvent", [[0, 1]])],
       [(("MusicActivity", "FOLLOWS", "CalendarEvent"), ([0], [0]))]⟩ := rfl
  have hloss : compute_contrastive_loss cos0 (smpe0 0) (fwd0 0)
      [(("MusicActivity", "FOLLOWS", "CalendarEvent"), ([0], [0]))] =
      ⟨0, false⟩ := rfl
  simp [train, hprep, List.range_succ_eq_map, List.foldlM_cons, hloss,
    Bind.bind, Except.bind]

/-- Witness for C1: one epoch on the concrete no-`PRECEDES` graph
aborts with the backward error. -/
theorem train_zero_precedes_edges_raises_witness :
    train fwd0 cos0 smpe0 gNoPrec 1 =
      Except.error TrainError.backwardNoGrad :=
  train_zero_precedes_edges_raises 1 (le_refl 1)

/-- C2 (amended): an unknown command is reported as an `{error}`
document through the normal result path on stdout and the process exits
0 (not non-zero); an exception raised by a known command is reported as
`{error}` on stderr (not stdout) with exit code 1; a successful known
command prints its result on stdout with exit code 0; and `main` with
three or more argv entries dispatches on `argv[1]`. -/
theorem cli_error_reporting_amended :
    ∀ (exec : String → Except String String) (command : String),
      (command ≠ "train" → command ≠ "infer" → command ≠ "embed" →
        command ≠ "check" →
        main_dispatch exec command =
          ⟨[OutDoc.errorDoc ("Unknown command: " ++ command)], [], 0⟩) ∧
      (∀ msg, (command = "train" ∨ command = "infer" ∨ command = "embed") →
        exec command = Except.error msg →
        main_dispatch exec command = ⟨[], [OutDoc.errorDoc msg], 1⟩) ∧
      (∀ payload,
        (command = "train" ∨ command = "infer" ∨ command = "embed") →
        exec command = Except.ok payload →
        main_dispatch exec command =
          ⟨[OutDoc.resultDoc payload], [], 0⟩) ∧
      (∀ (prog jsonArg : String) (rest : List String),
        main_cli (prog :: command :: jsonArg :: rest) exec =
          main_dispatch exec command) := by
  intro exec command
  refine ⟨?_, ?_, ?_, ?_⟩
  · intro h1 h2 h3 h4
    simp [main_dispatch, h1, h2, h3, h4]
  · intro msg hcmd hexec
    unfold main_dispatch
    rw [if_pos hcmd, hexec]
  · intro payload hcmd hexec
    unfold main_dispatch
    rw [if_pos hcmd, hexec]
  · intro prog jsonArg rest
    rfl

/-- Witness for C2 (amended): the failing `train` call reports on
stderr with exit code 1. -/
theorem cli_error_reporting_amended_witness :
    main_dispatch execFail0 "train" = ⟨[], [OutDoc.errorDoc "boom"], 1⟩ :=
  (cli_error_reporting_amended execFail0 "train").2.1 "boom" (Or.inl rfl) rfl

/-- Counterexample for C2 as stated: an unknown command produces its
error document on stdout but the process exits 0, and a failing known
command reports its error on stderr, not stdout. -/
theorem cli_error_reporting_counterexample :
    (main_dispatch execOk0 "bogus").exit_code = 0 ∧
    (main_dispatch execOk0 "bogus").stdout =
      [OutDoc.errorDoc "Unknown command: bogus"] ∧
    (main_dispatch execFail0 "train").stdout = [] ∧
    (main_dispatch execFail0 "train").stderr = [OutDoc.errorDoc "boom"] ∧
    (main_dispatch execFail0 "train").exit_code = 1 := by
  refine ⟨rfl, rfl, rfl, rfl, rfl⟩

theorem sigmoidR_bounds (x : ℝ) : 0 ≤ sigmoidR x ∧ sigmoidR x ≤ 1 := by
  have hpos : 0 < 1 + Real.exp (-x) := by positivity
  constructor
  · unfold sigmoidR
    positivity
  · unfold sigmoidR
    rw [div_le_one hpos]
    linarith [Real.exp_pos (-x)]

/-- C6: for every choice of head parameters, dropout masks and input
embedding pair, every scalar produced by the Correlation Head lies in
the closed interval `[0, 1]`, because the final layer output passes
through the sigmoid. -/
theorem correlation_head_bounded :
    ∀ (p : HeadParams) (m1 m2 e1 e2 : List ℝ) (y : ℝ),
      y ∈ predict_correlation p m1 m2 e1 e2 → 0 ≤ y ∧ y ≤ 1 := by
  intro p m1 m2 e1 e2 y hy
  simp only [predict_correlation, correlation_predictor] at hy
  rcases List.mem_map.mp hy with ⟨z, _, rfl⟩
  exact sigmoidR_bounds z

/-- Witness for C6: with the degenerate head `head0` the single output
scalar is `sigmoidR 0` and the bounds hold for it. -/
theorem correlation_head_bounded_witness :
    0 ≤ sigmoidR 0 ∧ sigmoidR 0 ≤ 1 :=
  correlation_head_bounded head0 [] [] [] [] (sigmoidR 0)
    (by simp [predict_correlation, correlation_predictor, linearR, dotR,
      reluR, dropoutR, head0])

theorem length_filterMap_mono {α β : Type} (f g : α → Option β)
    (h : ∀ a, (f a).isSome = true → (g a).isSome = true) :
    ∀ l : List α, (l.filterMap f).length ≤ (l.filterMap g).length := by
  intro l
  induction l with
  | nil => simp
  | cons a l ih =>
      cases hf : f a with
      | none =>
          cases hg : g a with
          | none => simpa [List.filterMap_cons, hf, hg] using ih
          | some b =>
              simp only [List.filterMap_cons, hf, hg, List.length_cons]
              exact le_trans ih (Nat.le_succ _)
      | some b =>
          have hgs : (g a).isSome = true := h a (by simp [hf])
          cases hg : g a with
          | none => rw [hg] at hgs; cases hgs
          | some c =>
              simp only [List.filterMap_cons, hf, hg, List.length_cons]
              exact Nat.succ_le_succ ih

theorem length_flatMap_mono {α β : Type} (f g : α → List β)
    (h : ∀ a, (f a).length ≤ (g a).length) :
    ∀ l : List α, (l.flatMap f).length ≤ (l.flatMap g).length := by
  intro l
  induction l with
  | nil => simp
  | cons a l ih =>
      simp only [List.flatMap_cons, List.length_append]
      exact Nat.add_le_add (h a) ih

theorem candidates_mono (score : ℕ → ℕ → ℚ) (nM nE : ℕ) {t1 t2 : ℚ}
    (h : t1 ≤ t2) :
    (candidatePatterns score nM nE t2).length ≤
      (candidatePatterns score nM nE t1).length := by
  unfold candidatePatterns
  apply length_flatMap_mono
  intro i
  apply length_filterMap_mono
  intro j hj
  by_cases hs : t2 ≤ score i j
  · have ht : t1 ≤ score i j := le_trans h hs
    simp [ht]
  · rw [if_neg hs] at hj
    cases hj

/-- C7: for the same score function (same graph and checkpoint),
raising `min_confidence` never increases the length of the pattern list
returned by the `infer` loop. -/
theorem infer_threshold_monotone (score : ℕ → ℕ → ℚ) (nM nE top_k : ℕ)
    (t1 t2 : ℚ) (h : t1 ≤ t2) :
    (infer_patterns score nM nE t2 top_k).length ≤
      (infer_patterns score nM nE t1 top_k).length := by
  unfold infer_patterns
  rw [List.length_take, List.length_take, List.length_insertionSort,
    List.length_insertionSort]
  exact min_le_min (le_refl top_k) (candidates_mono score nM nE h)

/-- Witness for C7: thresholds 0 and 1 on a constant-zero score. -/
theorem infer_threshold_monotone_witness :
    (infer_patterns (fun _ _ => (0 : ℚ)) 1 1 1 1).length ≤
      (infer_patterns (fun _ _ => (0 : ℚ)) 1 1 0 1).length :=
  infer_threshold_monotone (fun _ _ => 0) 1 1 1 0 1 (by norm_num)

theorem zipWith_eq_map_zip {α β γ : Type} (f : α → β → γ) :
    ∀ (l1 : List α) (l2 : List β),
      List.zipWith f l1 l2 = (l1.zip l2).map (fun p => f p.1 p.2) := by
  intro l1
  induction l1 with
  | nil => intro l2; simp
  | cons a l ih =>
      intro l2
      cases l2 with
      | nil => simp
      | cons b l2 => simp [ih]

/-- C4: on a graph whose prepared edge dict designates a `PRECEDES`
edge type with at least one edge, the contrastive loss equals
`-mean(cos(positive pairs)) + mean(relu(cos(negative pairs)))`, where
the positive pairs are the endpoint embeddings of every edge of that
type taken source to target, and the negative pairs pair the same
sources with freshly sampled target rows of the same target type, in
the same number as the positive pairs. -/
theorem contrastive_loss_formula
    (cosSim : List ℚ → List ℚ → ℚ) (sampler : ℕ → ℕ → List ℕ)
    (hs : ∀ n hi, (sampler n hi).length = n)
    (embeddings : String → List (List ℚ))
    (g : GraphJson) (d : HeteroData)
    (sT rel tT : String) (row0 row1 : List ℕ)
    (hprep : prepare_graph_data g = Except.ok d)
    (hfind : findPrecedes d.edge_index = some ((sT, rel, tT), (row0, row1)))
    (hne : row0 ≠ []) :
    compute_contrastive_loss cosSim sampler embeddings d.edge_index =
      ⟨-(mean ((row0.zip row1).map (fun st =>
          cosSim (getRow (embeddings sT) st.1)
            (getRow (embeddings tT) st.2)))) +
        mean ((row0.zip (sampler row0.length
            (embeddings tT).length)).map (fun st =>
          relu (cosSim (getRow (embeddings sT) st.1)
            (getRow (embeddings tT) st.2)))),
       true⟩ ∧
    (row0.zip (sampler row0.length (embeddings tT).length)).length =
      row0.length ∧
    row1.length = row0.length := by
  refine ⟨?_, ?_, ?_⟩
  · unfold compute_contrastive_loss
    rw [hfind]
    have h0 : ¬ (row0.length = 0) := fun h0 => hne (List.length_eq_zero.mp h0)
    simp only [h0, if_false, zipWith_eq_map_zip, List.zip_map, List.map_map]
    rfl
  · rw [List.length_zip, hs row0.length (embeddings tT).length]
    exact min_self _
  · have hmem : ((sT, rel, tT), (row0, row1)) ∈ d.edge_index :=
      List.mem_of_find?_eq_some hfind
    exact (prep_edge_lengths hprep _ hmem).symm

/-- Witness for C4: the concrete graph `gPrec` with one `PRECEDES`
edge, trivial cosine stand-in and a zero-index sampler. -/
theorem contrastive_loss_formula_witness :
    compute_contrastive_loss cos0 smp0 emb0 dPrec.edge_index =
      ⟨-(mean ((([0] : List ℕ).zip ([0] : List ℕ)).map (fun st =>
          cos0 (getRow (emb0 "MusicActivity") st.1)
            (getRow (emb0 "CalendarEvent") st.2)))) +
        mean ((([0] : List ℕ).zip (smp0 ([0] : List ℕ).length
            (emb0 "CalendarEvent").length)).map (fun st =>
          relu (cos0 (getRow (emb0 "MusicActivity") st.1)
            (getRow (emb0 "CalendarEvent") st.2)))),
       true⟩ ∧
    (([0] : List ℕ).zip (smp0 ([0] : List ℕ).length
        (emb0 "CalendarEvent").length)).length = ([0] : List ℕ).length ∧
    ([0] : List ℕ).length = ([0] : List ℕ).length :=
  contrastive_loss_formula cos0 smp0
    (fun n hi => List.length_replicate n 0) emb0 gPrec dPrec
    "MusicActivity" "PRECEDES" "CalendarEvent" [0] [0] rfl rfl
    (by simp)

theorem candidates_mem_spec {score : ℕ → ℕ → ℚ} {nM nE : ℕ} {c : ℚ}
    {p : Pattern} (hp : p ∈ candidatePatterns score nM nE c) :
    p.music_activity_idx < nM ∧ p.calendar_event_idx < nE ∧
    c ≤ p.correlation ∧
    p.correlation = score p.music_activity_idx p.calendar_event_idx ∧
    p.confidence_score = pyRound2 (p.correlation * 100) ∧
    p.pattern_type = "temporal_music_before_event" := by
  unfold candidatePatterns at hp
  rcases List.mem_flatMap.mp hp with ⟨i, hi, hpi⟩
  rcases List.mem_filterMap.mp hpi with ⟨j, hj, heq⟩
  by_cases hc : c ≤ score i j
  · rw [if_pos hc] at heq
    obtain rfl : mkPattern i j (score i j) = p := Option.some.inj heq
    exact ⟨List.mem_range.mp hi, List.mem_range.mp hj, hc, rfl, rfl, rfl⟩
  · rw [if_neg hc] at heq
    cases heq

theorem candidates_mem_intro {score : ℕ → ℕ → ℚ} {nM nE : ℕ} {c : ℚ}
    {i j : ℕ} (hi : i < nM) (hj : j < nE) (hc : c ≤ score i j) :
    mkPattern i j (score i j) ∈ candidatePatterns score nM nE c := by
  unfold candidatePatterns
  exact List.mem_flatMap.mpr
    ⟨i, List.mem_range.mpr hi,
     List.mem_filterMap.mpr ⟨j, List.mem_range.mpr hj, by rw [if_pos hc]⟩⟩

/-- C3 (amended): the `infer` loop returns exactly the qualifying
pairs, each entry carrying the raw score as `correlation` and the
rounded `confidence_score = round(score*100, 2)`, truncated to at most
`top_k` entries; but the ranking is descending by the rounded
`confidence_score` (scores collapsed by the rounding keep their
enumeration order), not by the raw score. -/
theorem infer_ranked_patterns_amended (score : ℕ → ℕ → ℚ) (nM nE : ℕ)
    (c : ℚ) (k : ℕ) :
    (infer_patterns score nM nE c k).Pairwise patGE ∧
    (infer_patterns score nM nE c k).length =
      min k (candidatePatterns score nM nE c).length ∧
    (∀ p ∈ infer_patterns score nM nE c k,
      p.music_activity_idx < nM ∧ p.calendar_event_idx < nE ∧
      c ≤ p.correlation ∧
      p.correlation = score p.music_activity_idx p.calendar_event_idx ∧
      p.confidence_score = pyRound2 (p.correlation * 100) ∧
      p.pattern_type = "temporal_music_before_event") ∧
    ((candidatePatterns score nM nE c).length ≤ k →
      ∀ i j, i < nM → j < nE → c ≤ score i j →
        mkPattern i j (score i j) ∈ infer_patterns score nM nE c k) := by
  refine ⟨?_, ?_, ?_, ?_⟩
  · have hsorted : (List.insertionSort patGE
        (candidatePatterns score nM nE c)).Sorted patGE :=
      List.sorted_insertionSort patGE _
    exact List.Pairwise.sublist (List.take_sublist _ _) hsorted
  · unfold infer_patterns
    rw [List.length_take, List.length_insertionSort]
  · intro p hp
    have hp2 : p ∈ List.insertionSort patGE
        (candidatePatterns score nM nE c) := List.mem_of_mem_take hp
    have hp3 : p ∈ candidatePatterns score nM nE c :=
      (List.perm_insertionSort patGE _).mem_iff.mp hp2
    exact candidates_mem_spec hp3
  · intro hlen i j hi hj hc
    have hmem := candidates_mem_intro hi hj hc
    have hmem2 : mkPattern i j (score i j) ∈ List.insertionSort patGE
        (candidatePatterns score nM nE c) :=
      (List.perm_insertionSort patGE _).mem_iff.mpr hmem
    unfold infer_patterns
    have hle : (List.insertionSort patGE
        (candidatePatterns score nM nE c)).length ≤ k := by
      rw [List.length_insertionSort]
      exact hlen
    rw [List.take_of_length_le hle]
    exact hmem2

theorem pyRound2_cScoreC3_0 : pyRound2 (cScoreC3 0 0 * 100) = 80 := by
  have hmul : cScoreC3 0 0 * 100 = mkRat 800001 10000 := by
    norm_num [cScoreC3, Rat.mkRat_eq_div]
  rw [hmul]
  exact of_decide_eq_true (by with_unfolding_all rfl)

theorem pyRound2_cScoreC3_1 : pyRound2 (cScoreC3 0 1 * 100) = 80 := by
  have hmul : cScoreC3 0 1 * 100 = mkRat 800004 10000 := by
    norm_num [cScoreC3, Rat.mkRat_eq_div]
  rw [hmul]
  exact of_decide_eq_true (by with_unfolding_all rfl)

theorem mkPattern_cScoreC3_0 :
    mkPattern 0 0 (cScoreC3 0 0) =
      ⟨"temporal_music_before_event", 0, 0, 80, mkRat 800001 1000000⟩ := by
  simp [mkPattern, Pattern.mk.injEq, pyRound2_cScoreC3_0]
  decide

theorem mkPattern_cScoreC3_1 :
    mkPattern 0 1 (cScoreC3 0 1) =
      ⟨"temporal_music_before_event", 0, 1, 80, mkRat 800004 1000000⟩ := by
  simp [mkPattern, Pattern.mk.injEq, pyRound2_cScoreC3_1]
  decide

theorem candidates_cScoreC3_eval :
    candidatePatterns cScoreC3 1 2 0 =
      [⟨"temporal_music_before_event", 0, 0, 80, mkRat 800001 1000000⟩,
       ⟨"temporal_music_before_event", 0, 1, 80, mkRat 800004 1000000⟩] := by
  have hr1 : List.range 1 = [0] := by decide
  have hr2 : List.range 2 = [0, 1] := by decide
  have hc0 : (0:ℚ) ≤ cScoreC3 0 0 := by decide
  have hc1 : (0:ℚ) ≤ cScoreC3 0 1 := by decide
  unfold candidatePatterns
  rw [hr1, hr2]
  simp [List.filterMap_cons, hc0, hc1, mkPattern_cScoreC3_0,
    mkPattern_cScoreC3_1]

theorem infer_cScoreC3_eval :
    infer_patterns cScoreC3 1 2 0 10 =
      [⟨"temporal_music_before_event", 0, 0, 80, mkRat 800001 1000000⟩,
       ⟨"temporal_music_before_event", 0, 1, 80, mkRat 800004 1000000⟩] := by
  unfold infer_patterns
  rw [candidates_cScoreC3_eval]
  decide

/-- Witness for C3 (amended): the qualifying pair `(0, 0)` of the
concrete score `cScoreC3` appears in the returned pattern list. -/
theorem infer_ranked_patterns_amended_witness :
    mkPattern 0 0 (cScoreC3 0 0) ∈ infer_patterns cScoreC3 1 2 0 10 :=
  (infer_ranked_patterns_amended cScoreC3 1 2 0 10).2.2.2
    (by rw [candidates_cScoreC3_eval]; decide) 0 0 (by decide) (by decide)
    (by decide)

/-- Counterexample for C3 as stated: with two scores that differ by
less than the rounding grain, the returned list is ordered by the
rounded confidence (enumeration order on ties), so it is NOT sorted
descending by the raw score: the first entry's `correlation` is
strictly below the second's. -/
theorem infer_sort_by_raw_score_counterexample :
    ((infer_patterns cScoreC3 1 2 0 10).map Pattern.correlation =
      [mkRat 800001 1000000, mkRat 800004 1000000]) ∧
    ¬ (infer_patterns cScoreC3 1 2 0 10).Pairwise
        (fun a b => b.correlation ≤ a.correlation) := by
  rw [infer_cScoreC3_eval]
  constructor
  · decide
  · decide

theorem collectStep_ids (embs : List (String × List (List ℚ))) :
    ∀ (ts : List String) (acc : List (List ℚ) × List String),
      ∀ s ∈ (ts.foldl (collectStep embs) acc).2,
        s ∈ acc.2 ∨ ∃ t, t ∈ ts ∧ ∃ i : ℕ, s = t ++ "_" ++ toString i := by
  intro ts
  induction ts with
  | nil => intro acc s hs; exact Or.inl hs
  | cons t ts ih =>
      intro acc s hs
      rw [List.foldl_cons] at hs
      rcases ih (collectStep embs acc t) s hs with h | ⟨t2, ht2, i, rfl⟩
      · unfold collectStep at h
        cases hl : lookupA embs t with
        | none =>
            rw [hl] at h
            exact Or.inl h
        | some e =>
            rw [hl] at h
            rcases List.mem_append.mp h with h2 | h2
            · exact Or.inl h2
            · rcases List.mem_map.mp h2 with ⟨i, _, rfl⟩
              exact Or.inr ⟨t, List.mem_cons_self _ _, i, rfl⟩
      · exact Or.inr ⟨t2, List.mem_cons_of_mem _ ht2, i, rfl⟩

theorem collectStep_len (embs : List (String × List (List ℚ))) :
    ∀ (ts : List String) (acc : List (List ℚ) × List String),
      acc.1.length = acc.2.length →
      ((ts.foldl (collectStep embs) acc).1).length =
        ((ts.foldl (collectStep embs) acc).2).length := by
  intro ts
  induction ts with
  | nil => intro acc h; exact h
  | cons t ts ih =>
      intro acc h
      rw [List.foldl_cons]
      apply ih
      unfold collectStep
      cases hl : lookupA embs t with
      | none => exact h
      | some e => simp [h]

theorem generate_embeddings_ok
    {layerFn : List (String × List (List ℚ)) →
      List (EdgeKey × (List ℕ × List ℕ)) → List (String × List (List ℚ))}
    {ckpt : Checkpoint} {g : GraphJson} {out : EmbedResult}
    (h : generate_embeddings layerFn ckpt g = Except.ok out) :
    ∃ embs, out = ⟨(collectEmbeddings ckpt.node_types embs).1,
      (collectEmbeddings ckpt.node_types embs).2⟩ := by
  unfold generate_embeddings at h
  split at h
  · exact absurd h (by simp)
  · split at h
    · exact absurd h (by simp)
    · split at h
      · exact absurd h (by simp)
      · injection h with h
        exact ⟨_, h.symm⟩

/-- C5: a node type absent from the checkpoint's recorded vocabulary is
silently excluded: the forward pass keeps only the node types the model
owns an embedder for, every exported node id is the synthetic id of a
checkpoint-recorded type (with as many exported embedding rows as ids),
and every pattern entry of the `infer` loop refers to music/event row
indices only — so a foreign type's nodes never appear in the output and
the calls do not fail on account of that type. -/
theorem unknown_node_type_silently_excluded :
    (∀ (layerFn : List (String × List (List ℚ)) →
        List (EdgeKey × (List ℕ × List ℕ)) →
        List (String × List (List ℚ)))
       (ckpt : Checkpoint) (g : GraphJson) (out : EmbedResult),
      generate_embeddings layerFn ckpt g = Except.ok out →
      (∀ s ∈ out.nodeIds, ∃ t, t ∈ ckpt.node_types ∧
        ∃ i : ℕ, s = t ++ "_" ++ toString i) ∧
      out.embeddings.length = out.nodeIds.length) ∧
    (∀ (layerFn : List (String × List (List ℚ)) →
        List (EdgeKey × (List ℕ × List ℕ)) →
        List (String × List (List ℚ)))
       (modelTypes : List String) x_dict edge_index_dict,
      forwardModel layerFn modelTypes x_dict edge_index_dict =
        layerFn (x_dict.filter (fun q => modelTypes.contains q.1))
          edge_index_dict) ∧
    (∀ (modelTypes : List String)
       (x_dict : List (String × List (List ℚ)))
       (p : String × List (List ℚ)),
      p ∈ x_dict.filter (fun q => modelTypes.contains q.1) →
      p.1 ∈ modelTypes) ∧
    (∀ (score : ℕ → ℕ → ℚ) (nM nE : ℕ) (c : ℚ) (k : ℕ) (p : Pattern),
      p ∈ infer_patterns score nM nE c k →
      p.music_activity_idx < nM ∧ p.calendar_event_idx < nE) := by
  refine ⟨?_, fun _ _ _ _ => rfl, ?_, ?_⟩
  · intro layerFn ckpt g out h
    obtain ⟨embs, rfl⟩ := generate_embeddings_ok h
    constructor
    · intro s hs
      rcases collectStep_ids embs ckpt.node_types ([], []) s hs
        with h2 | h2
      · simp at h2
      · exact h2
    · exact collectStep_len embs ckpt.node_types ([], []) rfl
  · intro mt xd p hp
    have hc := (List.mem_filter.mp hp).2
    simpa using hc
  · intro score nM nE c k p hp
    have hp2 : p ∈ List.insertionSort patGE
        (candidatePatterns score nM nE c) := List.mem_of_mem_take hp
    have hp3 : p ∈ candidatePatterns score nM nE c :=
      (List.perm_insertionSort patGE _).mem_iff.mp hp2
    have hspec := candidates_mem_spec hp3
    exact ⟨hspec.1, hspec.2.1⟩

/-- Witness for C5: exporting embeddings of `gFoo` against checkpoint
`ckpt0` (vocabulary `[A]`) succeeds, with type `Foo` excluded, and the
exported row count matches the id count. -/
theorem unknown_node_type_silently_excluded_witness :
    ∃ t, t ∈ ckpt0.node_types ∧
      ∃ i : ℕ, "A_0" = t ++ "_" ++ toString i :=
  ((unknown_node_type_silently_excluded.1 layer0 ckpt0 gFoo
      ⟨[[1]], ["A_0"]⟩ rfl).1) "A_0" (by simp)
